import Mathlib

/-!
# fs-remove-compat — shallow embedding and verification

This file embeds the resilient removal engine of `fs-remove-compat`
(`src/retry.ts`, `src/fallback/rmSync.ts`, `src/fallback/rm.ts`,
`src/fallback/fixWinEPERM.ts`, `src/safeRm.ts`, `src/safeRmSync.ts`,
`src/rm.ts`, `src/rmSync.ts`) and proves or refutes the specified
properties over the embedding.

Modelling conventions:
* Filesystem calls (`fs.unlinkSync`, `fs.rm`, chmod, stat, …) are the
  external boundary: their outcomes are supplied by explicit oracles
  (`res : Nat -> Option FsError` gives the outcome of the i-th underlying
  remove call; `fixRes i` gives the outcome of a permission-repair attempt
  made after the i-th failed call).  `none` means the call succeeded.
* JavaScript number arithmetic is modelled exactly: `Math.floor` over
  doubles becomes `Nat.floor` over `ℚ`, and counters are `Nat`.
* Errors carry the fields the code reads or writes: `code`, `message`,
  `path`, `syscall`.
* The sync and async variants of a routine that have literally identical
  decision logic (e.g. `fixWinEPERM` / `fixWinEPERMSync`) are embedded
  once, with a comment naming both sources.
-/

set_option maxRecDepth 4096

namespace FsRemoveCompat

/-- A Node.js `ErrnoException` restricted to the fields the library reads
or writes (`err.code`, `err.message`, `err.path`, `err.syscall`). -/
structure FsError where
  code : String
  message : String := ""
  path : String := ""
  syscall : String := ""
deriving DecidableEq, Repr

/-- `RmOptions` with defaults filled in (`Required<RmOptions>` in the
source): `recursive`, `force`, `maxRetries`, `retryDelay`. -/
structure RmOpts where
  recursive : Bool := false
  force : Bool := false
  maxRetries : Nat := 0
  retryDelay : Nat := 100
deriving DecidableEq, Repr

/-- `RETRYABLE_CODES` from `src/retry.ts` (the same list appears verbatim
in `src/fallback/rmSync.ts` and `src/fallback/rm.ts`). -/
def RETRYABLE_CODES : List String := ["EBUSY", "EMFILE", "ENFILE", "ENOTEMPTY", "EPERM"]

/-- `isRetryableError` from `src/retry.ts`: the error's code is one of the
five retryable codes. -/
def isRetryableError (e : FsError) : Bool := RETRYABLE_CODES.contains e.code

/-!
## IEEE binary64 model for the backoff arithmetic

`getBackoffDelay` computes `Math.floor(baseDelay * BACKOFF_FACTOR ** attempt)`
over JavaScript numbers, i.e. IEEE-754 binary64 values, and the literal
`1.2` denotes the binary64 value nearest to 6/5 — not 6/5 itself.  The
model below represents a finite double by its exact rational value and
rounds results to 53 significant bits with round-to-nearest, ties-to-even:

* `roundDouble` is exact for every value arising here: the inputs are 0 or
  at least 1 (`1.2 ** n ≥ 1` and `baseDelay` is a non-negative integer),
  so subnormals do not arise, and binary64 overflow (≥ 2^1024, reached
  only for attempt counts in the thousands) is not modelled;
* multiplication is correctly rounded (one rounding of the exact
  product), as IEEE-754 requires of `*`;
* `**` is modelled as correctly rounded (one rounding of the exact
  power `1.2^n`); ECMAScript only requires an implementation-dependent
  approximation here, and mainstream engines deliver the correctly
  rounded result for these operands (e.g. `1.2 ** 3 =
  1.7279999999999998`, the double just below 1.728);
* `Math.floor` of a non-negative double is exact.
-/

/-- Round a non-negative rational to the nearest integer, ties to even. -/
def roundNearestEven (x : ℚ) : Nat :=
  let n := (⌊x⌋).toNat
  let fr := x - n
  if fr < 1 / 2 then n
  else if 1 / 2 < fr then n + 1
  else if n % 2 = 0 then n else n + 1

/-- `⌊log₂ n⌋` by fuelled halving (the fuel `n` itself always suffices);
written without well-founded recursion so that it evaluates inside the
kernel. -/
def log2floor : Nat → Nat → Nat
  | 0, _ => 0
  | fuel + 1, n => if 2 ≤ n then log2floor fuel (n / 2) + 1 else 0

/-- Round a rational to the nearest IEEE binary64 value (53 significant
bits, round-to-nearest, ties-to-even), for arguments that are `≤ 0`
(returned as 0 — only the exact 0 arises) or `≥ 1` (the normal range
used by the backoff computation; no overflow is modelled). -/
def roundDouble (q : ℚ) : ℚ :=
  if q ≤ 0 then 0
  else
    let E := log2floor (⌊q⌋).toNat (⌊q⌋).toNat
    if 52 ≤ E then
      (roundNearestEven (q / ((2 ^ (E - 52) : ℕ) : ℚ)) : ℚ) * ((2 ^ (E - 52) : ℕ) : ℚ)
    else
      (roundNearestEven (q * ((2 ^ (52 - E) : ℕ) : ℚ)) : ℚ) / ((2 ^ (52 - E) : ℕ) : ℚ)

/-- Exact rational power (plain recursion, kernel-evaluable). -/
def qpow (b : ℚ) : Nat → ℚ
  | 0 => 1
  | n + 1 => b * qpow b n

/-- The binary64 exponentiation `b ** n`, modelled as the correctly
rounded exact power. -/
def powDouble (b : ℚ) (n : Nat) : ℚ := roundDouble (qpow b n)

/-- `BACKOFF_FACTOR = 1.2` from `src/retry.ts`: the binary64 value of the
literal `1.2`, i.e. `5404319552844595 / 2^52`, slightly below 6/5. -/
def BACKOFF_FACTOR : ℚ := roundDouble (1.2 : ℚ)

/-- `getBackoffDelay` from `src/retry.ts`:
`Math.floor(baseDelay * BACKOFF_FACTOR ** attempt)` in binary64
arithmetic — the integer `baseDelay` converted to a double, the power
and the product each rounded, and the floor taken exactly. -/
def getBackoffDelay (baseDelay : Nat) (attempt : Nat) : Nat :=
  (⌊roundDouble (roundDouble (baseDelay : ℚ) * powDouble BACKOFF_FACTOR attempt)⌋).toNat

/-- `shouldFixEPERM` from `src/fallback/fixWinEPERM.ts`:
`IS_WINDOWS && err.code === 'EPERM'`.  The ambient platform flag is an
explicit parameter `win`. -/
def shouldFixEPERM (win : Bool) (e : FsError) : Bool := win && e.code == "EPERM"

/-- `roundNearestEven` below the tie: the value rounds down. -/
theorem roundNearestEven_down (x : ℚ) (n : ℕ) (hfl : ⌊x⌋ = (n : ℤ))
    (hlt : x - (n : ℚ) < 1 / 2) : roundNearestEven x = n := by
  rw [roundNearestEven, hfl]
  simp only [Int.toNat_natCast]
  rw [if_pos hlt]

/-- `roundNearestEven` above the tie: the value rounds up. -/
theorem roundNearestEven_up (x : ℚ) (n : ℕ) (hfl : ⌊x⌋ = (n : ℤ))
    (hgt : 1 / 2 < x - (n : ℚ)) : roundNearestEven x = n + 1 := by
  rw [roundNearestEven, hfl]
  simp only [Int.toNat_natCast]
  rw [if_neg (by linarith), if_pos hgt]

/-- Evaluation scheme for `roundDouble` in the sub-2^53 exponent range
(`E < 52`): result is the rounded 53-bit mantissa over the scale
`2^(52-E)`. -/
theorem roundDouble_eval (q : ℚ) (f E m : ℕ) (hq : ¬ q ≤ 0)
    (hfl : ⌊q⌋ = (f : ℤ)) (hE : log2floor f f = E) (hE52 : ¬ 52 ≤ E)
    (hm : roundNearestEven (q * ((2 ^ (52 - E) : ℕ) : ℚ)) = m) :
    roundDouble q = (m : ℚ) / ((2 ^ (52 - E) : ℕ) : ℚ) := by
  rw [roundDouble, if_neg hq, hfl]
  simp only [Int.toNat_natCast, hE]
  rw [if_neg hE52, hm]

/-- The binary64 value of the literal `1.2`: `5404319552844595 / 2^52`
(slightly below 6/5; `6/5 · 2^52` has fractional part 1/5, so it rounds
down). -/
theorem BACKOFF_FACTOR_eq : BACKOFF_FACTOR = 5404319552844595 / 4503599627370496 := by
  rw [BACKOFF_FACTOR,
    roundDouble_eval (1.2 : ℚ) 1 0 5404319552844595 (by norm_num) (by norm_num) rfl
      (by norm_num)
      (roundNearestEven_down _ 5404319552844595 (by norm_num) (by norm_num))]
  norm_num

/-- `1.2 ** 0 = 1`, exactly. -/
theorem powDouble_zero : powDouble BACKOFF_FACTOR 0 = 1 := by
  rw [powDouble, show qpow BACKOFF_FACTOR 0 = 1 from rfl,
    roundDouble_eval 1 1 0 4503599627370496 (by norm_num) (by norm_num) rfl (by norm_num)
      (roundNearestEven_down _ 4503599627370496 (by norm_num) (by norm_num))]
  norm_num

/-- `1.2 ** 1` is the stored double itself. -/
theorem powDouble_one : powDouble BACKOFF_FACTOR 1 = 5404319552844595 / 4503599627370496 := by
  have h : qpow BACKOFF_FACTOR 1 = 5404319552844595 / 4503599627370496 := by
    rw [qpow, qpow, BACKOFF_FACTOR_eq]; ring
  rw [powDouble, h,
    roundDouble_eval _ 1 0 5404319552844595 (by norm_num) (by norm_num) rfl (by norm_num)
      (roundNearestEven_down _ 5404319552844595 (by norm_num) (by norm_num))]
  norm_num

/-- `1.2 ** 2`, rounding the exact square of the stored double up to
`6485183463413514 / 2^52`. -/
theorem powDouble_two : powDouble BACKOFF_FACTOR 2 = 3242591731706757 / 2251799813685248 := by
  have h : qpow BACKOFF_FACTOR 2 =
      29206669829258403248756220714025 / 20282409603651670423947251286016 := by
    rw [qpow, qpow, qpow, BACKOFF_FACTOR_eq]; norm_num
  rw [powDouble, h,
    roundDouble_eval _ 1 0 6485183463413514 (by norm_num) (by norm_num) rfl (by norm_num)
      (roundNearestEven_up _ 6485183463413513 (by norm_num) (by norm_num))]
  norm_num

/-- `1.2 ** 3 = 1.7279999999999998…`, the double `7782220156096216 / 2^52`
just below 1.728. -/
theorem powDouble_three : powDouble BACKOFF_FACTOR 3 = 972777519512027 / 562949953421312 := by
  have h : qpow BACKOFF_FACTOR 3 =
      157842176831737497641996064378315968350761944875 /
        91343852333181432387730302044767688728495783936 := by
    rw [qpow, qpow, qpow, qpow, BACKOFF_FACTOR_eq]; norm_num
  rw [powDouble, h,
    roundDouble_eval _ 1 0 7782220156096216 (by norm_num) (by norm_num) rfl (by norm_num)
      (roundNearestEven_down _ 7782220156096216 (by norm_num) (by norm_num))]
  norm_num

/-- The integer 100 is an exact double. -/
theorem roundDouble_100 : roundDouble (100 : ℚ) = 100 := by
  rw [roundDouble_eval 100 100 6 7036874417766400 (by norm_num) (by norm_num) rfl (by norm_num)
      (roundNearestEven_down _ 7036874417766400 (by norm_num) (by norm_num))]
  norm_num

/-- The integer 125 is an exact double. -/
theorem roundDouble_125 : roundDouble (125 : ℚ) = 125 := by
  rw [roundDouble_eval 125 125 6 8796093022208000 (by norm_num) (by norm_num) rfl (by norm_num)
      (roundNearestEven_down _ 8796093022208000 (by norm_num) (by norm_num))]
  norm_num

/-- Evaluation scheme for `getBackoffDelay` from the values of its three
rounding steps. -/
theorem getBackoffDelay_eval (b n : ℕ) (pb p r : ℚ) (v : ℕ)
    (hb : roundDouble (b : ℚ) = pb) (hp : powDouble BACKOFF_FACTOR n = p)
    (hr : roundDouble (pb * p) = r) (hv : (⌊r⌋).toNat = v) :
    getBackoffDelay b n = v := by
  rw [getBackoffDelay, hb, hp, hr, hv]

/-- `Math.floor(100 * 1.2 ** 0) = 100`. -/
theorem getBackoffDelay_100_0 : getBackoffDelay 100 0 = 100 := by
  refine getBackoffDelay_eval 100 0 100 1 100 100 roundDouble_100 powDouble_zero ?_ ?_
  · rw [mul_one]; exact roundDouble_100
  · rw [show (⌊(100 : ℚ)⌋ : ℤ) = (100 : ℕ) by norm_num]; exact Int.toNat_natCast 100

/-- `Math.floor(100 * 1.2 ** 1) = 120` (the product rounds to exactly
120). -/
theorem getBackoffDelay_100_1 : getBackoffDelay 100 1 = 120 := by
  refine getBackoffDelay_eval 100 1 100 (5404319552844595 / 4503599627370496) 120 120
    roundDouble_100 powDouble_one ?_ ?_
  · rw [roundDouble_eval _ 119 6 8444249301319680 (by norm_num) (by norm_num) rfl (by norm_num)
      (roundNearestEven_up _ 8444249301319679 (by norm_num) (by norm_num))]
    norm_num
  · rw [show (⌊(120 : ℚ)⌋ : ℤ) = (120 : ℕ) by norm_num]; exact Int.toNat_natCast 120

/-- `Math.floor(100 * 1.2 ** 2) = 144` (the product rounds to exactly
144). -/
theorem getBackoffDelay_100_2 : getBackoffDelay 100 2 = 144 := by
  refine getBackoffDelay_eval 100 2 100 (3242591731706757 / 2251799813685248) 144 144
    roundDouble_100 powDouble_two ?_ ?_
  · rw [roundDouble_eval _ 143 7 5066549580791808 (by norm_num) (by norm_num) rfl (by norm_num)
      (roundNearestEven_up _ 5066549580791807 (by norm_num) (by norm_num))]
    norm_num
  · rw [show (⌊(144 : ℚ)⌋ : ℤ) = (144 : ℕ) by norm_num]; exact Int.toNat_natCast 144

/-- `Math.floor(100 * 1.2 ** 3) = 172` (the product is the double just
below 172.8). -/
theorem getBackoffDelay_100_3 : getBackoffDelay 100 3 = 172 := by
  refine getBackoffDelay_eval 100 3 100 (972777519512027 / 562949953421312)
    (6079859496950169 / 35184372088832) 172 roundDouble_100 powDouble_three ?_ ?_
  · rw [roundDouble_eval _ 172 7 6079859496950169 (by norm_num) (by norm_num) rfl (by norm_num)
      (roundNearestEven_up _ 6079859496950168 (by norm_num) (by norm_num))]
    norm_num
  · rw [show (⌊(6079859496950169 / 35184372088832 : ℚ)⌋ : ℤ) = (172 : ℕ) by norm_num]
    exact Int.toNat_natCast 172

/-- `Math.floor(125 * 1.2 ** 3) = 215`: the product
`125 · (7782220156096216 / 2^52)` is the double `7599824371187711 / 2^45 =
215.99999999999997…`, whose floor is 215 — not 216. -/
theorem getBackoffDelay_125_3 : getBackoffDelay 125 3 = 215 := by
  refine getBackoffDelay_eval 125 3 125 (972777519512027 / 562949953421312)
    (7599824371187711 / 35184372088832) 215 roundDouble_125 powDouble_three ?_ ?_
  · rw [roundDouble_eval _ 215 7 7599824371187711 (by norm_num) (by norm_num) rfl (by norm_num)
      (roundNearestEven_up _ 7599824371187710 (by norm_num) (by norm_num))]
    norm_num
  · rw [show (⌊(7599824371187711 / 35184372088832 : ℚ)⌋ : ℤ) = (215 : ℕ) by norm_num]
    exact Int.toNat_natCast 215

/-- The exact-arithmetic value of the claim's formula at (125, 3):
`floor(125 · (6/5)³) = floor(216) = 216`. -/
theorem exact_floor_125_3 : Nat.floor ((125 : ℚ) * (6 / 5 : ℚ) ^ 3) = 216 := by
  rw [Nat.floor_eq_iff (by norm_num)]
  norm_num

/-!
## Leaf removal with retry — fallback (fixed-delay) variant

Embedding of `unlinkSync` from `src/fallback/rmSync.ts` (lines 20-53).
`rmdirSync` (lines 58-78) is the same loop without the EPERM-repair
branch; `unlinkWithRetry`/`rmdirWithRetry`/`retryOrFail` from
`src/fallback/rm.ts` implement the identical decision logic with
callbacks (fixed delay `options.retryDelay` passed to `setTimeout`).

The loop `for (attempt = 0; attempt <= maxRetries; attempt++)` is
embedded with `remaining = maxRetries - attempt` as the structural
recursion argument; the source's continue-condition
`RETRYABLE_CODES.indexOf(code) !== -1 && attempt < maxRetries`
becomes `isRetryableError e && remaining ≠ 0`.

Oracles: `res i` is the outcome of the (i+1)-th `fs.unlinkSync` call
(`none` = success); `fixRes i` is the outcome of `fixWinEPERMSync`
when invoked after failed call `i` (`none` = the repair succeeded,
`some e` = the repair threw, which the caller catches and discards).
-/

/-- Observable summary of one leaf-removal run: final outcome, number of
underlying remove calls made, the backoff delays waited (in order), and
how many times the Windows permission repair was attempted. -/
structure LeafRun where
  result : Option FsError
  calls : Nat
  delays : List Nat
  fixAttempts : Nat
deriving DecidableEq, Repr

/-- The retry loop of `unlinkSync` (`src/fallback/rmSync.ts`), one
iteration per call of this function, starting at iteration `attempt`
with `remaining = maxRetries - attempt` iterations allowed after it. -/
def unlinkSyncGo (win : Bool) (opts : RmOpts) (res : Nat → Option FsError)
    (fixRes : Nat → Option FsError) : Nat → Nat → LeafRun
  | remaining, attempt =>
    match res attempt with
    | none => ⟨none, 1, [], 0⟩
    | some e =>
      if e.code = "ENOENT" then
        ⟨if opts.force then none else some e, 1, [], 0⟩
      else if shouldFixEPERM win e && (fixRes attempt).isNone then
        -- `fixWinEPERMSync(path, error); return;`
        ⟨none, 1, [], 1⟩
      else
        let fa : Nat := if shouldFixEPERM win e then 1 else 0
        -- `if (RETRYABLE_CODES.indexOf(error.code || '') === -1 || attempt >= options.maxRetries) throw error;`
        if isRetryableError e then
          match remaining with
          | r + 1 =>
            -- `busyWait(options.retryDelay)` then next loop iteration
            let rest := unlinkSyncGo win opts res fixRes r (attempt + 1)
            ⟨rest.result, rest.calls + 1, opts.retryDelay :: rest.delays,
              fa + rest.fixAttempts⟩
          | 0 => ⟨some e, 1, [], fa⟩
        else ⟨some e, 1, [], fa⟩

/-- `unlinkSync(path, options)` from `src/fallback/rmSync.ts`. -/
def unlinkSyncRun (win : Bool) (opts : RmOpts) (res : Nat → Option FsError)
    (fixRes : Nat → Option FsError) : LeafRun :=
  unlinkSyncGo win opts res fixRes opts.maxRetries 0

/-!
## Leaf removal with retry — safe (exponential-backoff) variant

Embedding of `safeRmImpl` + `retryIfNeeded` from `src/safeRm.ts`
(lines 37-82); `safeRmImpl`/`retryIfNeeded` in the promise-capable
variant of the same file and the loop of `safeRmPromise` implement the
same decision logic.  One invocation of `safeRmImpl` per iteration;
`res attempt` is the outcome `rmOnce` delivers to its callback,
`fixRes attempt` the outcome `fixWinEPERM` delivers to its callback. -/
def safeRmGo (win : Bool) (opts : RmOpts) (res : Nat → Option FsError)
    (fixRes : Nat → Option FsError) : Nat → Nat → LeafRun
  | remaining, attempt =>
    match res attempt with
    | none => ⟨none, 1, [], 0⟩
    | some e =>
      -- `if (err.code === 'ENOENT' && opts.force) return callback();`
      if e.code = "ENOENT" && opts.force then
        ⟨none, 1, [], 0⟩
      else if shouldFixEPERM win e && (fixRes attempt).isNone then
        -- `fixWinEPERM(path, err, (fixErr) => { if (!fixErr) return callback(); ... })`
        ⟨none, 1, [], 1⟩
      else
        let fa : Nat := if shouldFixEPERM win e then 1 else 0
        -- `retryIfNeeded`: `if (!isRetryableError(err) || attempt >= maxRetries) callback(err)`
        if isRetryableError e then
          match remaining with
          | r + 1 =>
            -- `setTimeout(() => safeRmImpl(path, options, attempt + 1, callback), delay)`
            let rest := safeRmGo win opts res fixRes r (attempt + 1)
            ⟨rest.result, rest.calls + 1,
              getBackoffDelay opts.retryDelay attempt :: rest.delays,
              fa + rest.fixAttempts⟩
          | 0 => ⟨some e, 1, [], fa⟩
        else ⟨some e, 1, [], fa⟩

/-- `safeRm(path, options, callback)` (callback entry point of
`src/safeRm.ts`): starts `safeRmImpl` at `attempt = 0`. -/
def safeRmRun (win : Bool) (opts : RmOpts) (res : Nat → Option FsError)
    (fixRes : Nat → Option FsError) : LeafRun :=
  safeRmGo win opts res fixRes opts.maxRetries 0

/-!
## The sync safe variant

Embedding of `safeRmSync` from `src/safeRmSync.ts` (lines 26-83).  When
`opts.maxRetries === 0` it delegates a single call to the underlying
implementation (native `fs.rmSync` or `fallbackRmSync`) and lets that
call's outcome pass through unchanged; otherwise it runs the retry loop
of lines 45-82, whose per-iteration logic mirrors `safeRmImpl`. -/
def safeRmSyncGo (win : Bool) (opts : RmOpts) (res : Nat → Option FsError)
    (fixRes : Nat → Option FsError) : Nat → Nat → LeafRun
  | remaining, attempt =>
    match res attempt with
    | none => ⟨none, 1, [], 0⟩
    | some e =>
      -- `if (err.code === 'ENOENT' && opts.force) return;`
      if e.code = "ENOENT" && opts.force then
        ⟨none, 1, [], 0⟩
      else if shouldFixEPERM win e && (fixRes attempt).isNone then
        -- `try { fixWinEPERMSync(path, err); return; } catch (_fixErr) { }`
        ⟨none, 1, [], 1⟩
      else
        let fa : Nat := if shouldFixEPERM win e then 1 else 0
        -- `if (!isRetryableError(err) || attempt >= opts.maxRetries) throw err;`
        if isRetryableError e then
          match remaining with
          | r + 1 =>
            -- `busyWait(getBackoffDelay(opts.retryDelay, attempt))`
            let rest := safeRmSyncGo win opts res fixRes r (attempt + 1)
            ⟨rest.result, rest.calls + 1,
              getBackoffDelay opts.retryDelay attempt :: rest.delays,
              fa + rest.fixAttempts⟩
          | 0 => ⟨some e, 1, [], fa⟩
        else ⟨some e, 1, [], fa⟩

/-- `safeRmSync(path, options)` from `src/safeRmSync.ts`, including the
`maxRetries === 0` shortcut (lines 35-42) that forwards a single
underlying call without any wrapper handling. -/
def safeRmSyncRun (win : Bool) (opts : RmOpts) (res : Nat → Option FsError)
    (fixRes : Nat → Option FsError) : LeafRun :=
  if opts.maxRetries = 0 then
    match res 0 with
    | none => ⟨none, 1, [], 0⟩
    | some e => ⟨some e, 1, [], 0⟩
  else
    safeRmSyncGo win opts res fixRes opts.maxRetries 0

/-- A retryable code is never `ENOENT` (`ENOENT` is not in
`RETRYABLE_CODES`). -/
theorem isRetryableError_ne_enoent {e : FsError} (h : isRetryableError e = true) :
    ¬ e.code = "ENOENT" := by
  intro hcode
  rw [isRetryableError, hcode] at h
  exact absurd h (by decide)

/-- In the fixed-delay (fallback) loop, every recorded backoff delay is
exactly `opts.retryDelay`. -/
theorem unlinkSyncGo_delays_fixed (win : Bool) (opts : RmOpts)
    (res fixRes : Nat → Option FsError) :
    ∀ remaining attempt,
      ∀ d ∈ (unlinkSyncGo win opts res fixRes remaining attempt).delays,
        d = opts.retryDelay := by
  intro remaining
  induction remaining with
  | zero =>
    intro attempt d hd
    cases hres : res attempt with
    | none => rw [unlinkSyncGo] at hd; simp only [hres] at hd; exact absurd hd (List.not_mem_nil d)
    | some e =>
      rw [unlinkSyncGo] at hd; simp only [hres] at hd
      by_cases h1 : e.code = "ENOENT"
      · rw [if_pos h1] at hd; exact absurd hd (List.not_mem_nil d)
      · rw [if_neg h1] at hd
        by_cases h2 : (shouldFixEPERM win e && (fixRes attempt).isNone) = true
        · rw [if_pos h2] at hd; exact absurd hd (List.not_mem_nil d)
        · rw [if_neg h2] at hd
          by_cases h3 : isRetryableError e = true
          · rw [if_pos h3] at hd; exact absurd hd (List.not_mem_nil d)
          · rw [if_neg h3] at hd; exact absurd hd (List.not_mem_nil d)
  | succ r ih =>
    intro attempt d hd
    cases hres : res attempt with
    | none => rw [unlinkSyncGo] at hd; simp only [hres] at hd; exact absurd hd (List.not_mem_nil d)
    | some e =>
      rw [unlinkSyncGo] at hd; simp only [hres] at hd
      by_cases h1 : e.code = "ENOENT"
      · rw [if_pos h1] at hd; exact absurd hd (List.not_mem_nil d)
      · rw [if_neg h1] at hd
        by_cases h2 : (shouldFixEPERM win e && (fixRes attempt).isNone) = true
        · rw [if_pos h2] at hd; exact absurd hd (List.not_mem_nil d)
        · rw [if_neg h2] at hd
          by_cases h3 : isRetryableError e = true
          · rw [if_pos h3] at hd
            rcases List.mem_cons.mp hd with hd' | hd'
            · exact hd'
            · exact ih (attempt + 1) d hd'
          · rw [if_neg h3] at hd; exact absurd hd (List.not_mem_nil d)

/-- In the exponential-backoff (safe) recursion started at `attempt`, the
j-th recorded delay is `getBackoffDelay opts.retryDelay (attempt + j)`. -/
theorem safeRmGo_delays_exp (win : Bool) (opts : RmOpts)
    (res fixRes : Nat → Option FsError) :
    ∀ remaining attempt,
      (safeRmGo win opts res fixRes remaining attempt).delays =
        (List.range' attempt
            (safeRmGo win opts res fixRes remaining attempt).delays.length).map
          (getBackoffDelay opts.retryDelay) := by
  intro remaining
  induction remaining with
  | zero =>
    intro attempt
    cases hres : res attempt with
    | none => rw [safeRmGo]; simp only [hres]; rfl
    | some e =>
      rw [safeRmGo]; simp only [hres]
      by_cases h1 : (decide (e.code = "ENOENT") && opts.force) = true
      · rw [if_pos h1]; rfl
      · rw [if_neg h1]
        by_cases h2 : (shouldFixEPERM win e && (fixRes attempt).isNone) = true
        · rw [if_pos h2]; rfl
        · rw [if_neg h2]
          by_cases h3 : isRetryableError e = true
          · rw [if_pos h3]; rfl
          · rw [if_neg h3]; rfl
  | succ r ih =>
    intro attempt
    cases hres : res attempt with
    | none => rw [safeRmGo]; simp only [hres]; rfl
    | some e =>
      rw [safeRmGo]; simp only [hres]
      by_cases h1 : (decide (e.code = "ENOENT") && opts.force) = true
      · rw [if_pos h1]; rfl
      · rw [if_neg h1]
        by_cases h2 : (shouldFixEPERM win e && (fixRes attempt).isNone) = true
        · rw [if_pos h2]; rfl
        · rw [if_neg h2]
          by_cases h3 : isRetryableError e = true
          · rw [if_pos h3]
            show getBackoffDelay opts.retryDelay attempt ::
                (safeRmGo win opts res fixRes r (attempt + 1)).delays = _
            rw [ih (attempt + 1)]
            simp [List.range'_succ]
          · rw [if_neg h3]; rfl

/-- One failing loop iteration that neither succeeds, resolves `ENOENT`,
nor is rescued by the permission repair. -/
def failsRetryably (res fixRes : Nat → Option FsError) (i : Nat) : Prop :=
  (res i).any isRetryableError = true ∧ (fixRes i).isSome = true

instance (res fixRes : Nat → Option FsError) (i : Nat) :
    Decidable (failsRetryably res fixRes i) := by
  unfold failsRetryably; infer_instance

/-- If every iteration in the window fails retryably (repair included),
the fallback loop makes all `remaining + 1` calls, waits the fixed delay
between them, and ends with the last call's error. -/
theorem unlinkSyncGo_all_fail (win : Bool) (opts : RmOpts)
    (res fixRes : Nat → Option FsError) :
    ∀ remaining attempt,
      (∀ i, attempt ≤ i → i ≤ attempt + remaining → failsRetryably res fixRes i) →
      (unlinkSyncGo win opts res fixRes remaining attempt).result = res (attempt + remaining) ∧
      (unlinkSyncGo win opts res fixRes remaining attempt).calls = remaining + 1 ∧
      (unlinkSyncGo win opts res fixRes remaining attempt).delays =
        List.replicate remaining opts.retryDelay := by
  intro remaining
  induction remaining with
  | zero =>
    intro attempt h
    obtain ⟨hany, hfix⟩ := h attempt le_rfl (by omega)
    rcases hres : res attempt with _ | e
    · rw [hres] at hany; simp [Option.any] at hany
    · rw [hres] at hany
      simp only [Option.any_some] at hany
      have hfix' : (fixRes attempt).isNone = false := by
        rcases hfr : fixRes attempt with _ | _ <;> simp_all
      rw [unlinkSyncGo]
      simp only [hres]
      rw [if_neg (isRetryableError_ne_enoent hany), if_neg (by simp [hfix']), if_pos hany]
      rw [Nat.add_zero, hres]
      exact ⟨rfl, rfl, rfl⟩
  | succ r ih =>
    intro attempt h
    obtain ⟨hany, hfix⟩ := h attempt le_rfl (by omega)
    rcases hres : res attempt with _ | e
    · rw [hres] at hany; simp [Option.any] at hany
    · rw [hres] at hany
      simp only [Option.any_some] at hany
      have hfix' : (fixRes attempt).isNone = false := by
        rcases hfr : fixRes attempt with _ | _ <;> simp_all
      rw [unlinkSyncGo]
      simp only [hres]
      rw [if_neg (isRetryableError_ne_enoent hany), if_neg (by simp [hfix']), if_pos hany]
      obtain ⟨ih1, ih2, ih3⟩ := ih (attempt + 1) (fun i h1 h2 => h i (by omega) (by omega))
      refine ⟨?_, ?_, ?_⟩
      · show (unlinkSyncGo win opts res fixRes r (attempt + 1)).result = _
        rw [ih1]; congr 1; omega
      · show (unlinkSyncGo win opts res fixRes r (attempt + 1)).calls + 1 = _
        rw [ih2]
      · show opts.retryDelay :: (unlinkSyncGo win opts res fixRes r (attempt + 1)).delays = _
        rw [ih3, List.replicate_succ]

/-- If the first `remaining` iterations fail retryably and the next call
succeeds, the fallback loop succeeds after exactly `remaining + 1`
calls. -/
theorem unlinkSyncGo_fail_then_succeed (win : Bool) (opts : RmOpts)
    (res fixRes : Nat → Option FsError) :
    ∀ remaining attempt,
      (∀ i, attempt ≤ i → i < attempt + remaining → failsRetryably res fixRes i) →
      res (attempt + remaining) = none →
      (unlinkSyncGo win opts res fixRes remaining attempt).result = none ∧
      (unlinkSyncGo win opts res fixRes remaining attempt).calls = remaining + 1 ∧
      (unlinkSyncGo win opts res fixRes remaining attempt).delays =
        List.replicate remaining opts.retryDelay := by
  intro remaining
  induction remaining with
  | zero =>
    intro attempt _ hsucc
    rw [Nat.add_zero] at hsucc
    rw [unlinkSyncGo, hsucc]
    exact ⟨rfl, rfl, rfl⟩
  | succ r ih =>
    intro attempt h hsucc
    obtain ⟨hany, hfix⟩ := h attempt le_rfl (by omega)
    rcases hres : res attempt with _ | e
    · rw [hres] at hany; simp [Option.any] at hany
    · rw [hres] at hany
      simp only [Option.any_some] at hany
      have hfix' : (fixRes attempt).isNone = false := by
        rcases hfr : fixRes attempt with _ | _ <;> simp_all
      rw [unlinkSyncGo]
      simp only [hres]
      rw [if_neg (isRetryableError_ne_enoent hany), if_neg (by simp [hfix']), if_pos hany]
      have hsucc' : res (attempt + 1 + r) = none := by
        rw [show attempt + 1 + r = attempt + (r + 1) by omega]; exact hsucc
      obtain ⟨ih1, ih2, ih3⟩ :=
        ih (attempt + 1) (fun i h1 h2 => h i (by omega) (by omega)) hsucc'
      refine ⟨?_, ?_, ?_⟩
      · show (unlinkSyncGo win opts res fixRes r (attempt + 1)).result = _
        exact ih1
      · show (unlinkSyncGo win opts res fixRes r (attempt + 1)).calls + 1 = _
        rw [ih2]
      · show opts.retryDelay :: (unlinkSyncGo win opts res fixRes r (attempt + 1)).delays = _
        rw [ih3, List.replicate_succ]

/-- C1 counterexample: at `retryDelay = 125`, attempt `n = 3` the
program's binary64 evaluation `Math.floor(125 * 1.2 ** 3)` yields 215
(`1.2 ** 3` is the double `1.7279999999999998`, just below 1.728, and
`125 ·` that is just below 216), while the claim's formula
`floor(125 · 1.2³) = floor(216)` is 216 — so the exponential delay does
not equal `floor(retryDelay · 1.2^n)` for every input. -/
theorem C1_counterexample :
    getBackoffDelay 125 3 = 215 ∧
    Nat.floor ((125 : ℚ) * (6 / 5 : ℚ) ^ 3) = 216 ∧
    getBackoffDelay 125 3 ≠ Nat.floor ((125 : ℚ) * (6 / 5 : ℚ) ^ 3) := by
  refine ⟨getBackoffDelay_125_3, exact_floor_125_3, ?_⟩
  rw [getBackoffDelay_125_3, exact_floor_125_3]
  decide

/-- C1 (amended): under the fixed-delay policy (the strict/ponyfill
fallback path, `unlinkSync`/`retryOrFail`) every backoff delay equals
`retryDelay`; under the exponential policy (the safe variants) the delay
before the attempt following failed attempt `n` is
`Math.floor(retryDelay * 1.2 ** n)` evaluated in IEEE binary64
arithmetic, as the code computes it — which agrees with the exact
`floor(retryDelay · 1.2^n)` at the spec's example `retryDelay = 100`,
`n = 0..3` (delays 100, 120, 144, 172), but not for every `retryDelay`
and `n` (at `retryDelay = 125`, `n = 3` the program produces 215 where
the exact formula gives 216). -/
theorem C1_backoff_policy (win : Bool) (opts : RmOpts)
    (res fixRes : Nat → Option FsError) :
    (∀ d ∈ (unlinkSyncRun win opts res fixRes).delays, d = opts.retryDelay) ∧
    ((safeRmRun win opts res fixRes).delays =
      (List.range' 0 (safeRmRun win opts res fixRes).delays.length).map
        (getBackoffDelay opts.retryDelay)) ∧
    getBackoffDelay 100 0 = 100 ∧ getBackoffDelay 100 1 = 120 ∧
    getBackoffDelay 100 2 = 144 ∧ getBackoffDelay 100 3 = 172 :=
  ⟨fun d hd => unlinkSyncGo_delays_fixed win opts res fixRes opts.maxRetries 0 d hd,
    safeRmGo_delays_exp win opts res fixRes opts.maxRetries 0,
    getBackoffDelay_100_0, getBackoffDelay_100_1, getBackoffDelay_100_2, getBackoffDelay_100_3⟩

/-- Witness for C1 (amended) at a concrete run: `retryDelay = 250`, three
calls all failing with `EBUSY` and a failing repair; the recorded delay
is the fixed 250. -/
theorem C1_backoff_policy_witness :
    250 ∈ (unlinkSyncRun false ⟨false, false, 2, 250⟩
        (fun _ => some ⟨"EBUSY", "", "", ""⟩) (fun _ => some ⟨"EBUSY", "", "", ""⟩)).delays ∧
    250 = (⟨false, false, 2, 250⟩ : RmOpts).retryDelay :=
  ⟨by decide,
    (C1_backoff_policy false ⟨false, false, 2, 250⟩
      (fun _ => some ⟨"EBUSY", "", "", ""⟩) (fun _ => some ⟨"EBUSY", "", "", ""⟩)).1
      250 (by decide)⟩

/-- C2: For every leaf removal with retry budget `maxRetries`: if the
underlying remove call fails with a retryable code on every attempt up to
and including attempt `maxRetries` (and the permission repair, when
consulted, does not rescue the attempt), the operation ends with that
error after exactly `maxRetries + 1` underlying calls; and if it fails
with a retryable code exactly `maxRetries` times and the next call
succeeds, it ends successfully after exactly `maxRetries + 1` underlying
calls. -/
theorem C2_retry_budget :
    (∀ (win : Bool) (opts : RmOpts) (res fixRes : Nat → Option FsError),
      (∀ i, i ≤ opts.maxRetries → failsRetryably res fixRes i) →
      (unlinkSyncRun win opts res fixRes).result = res opts.maxRetries ∧
      (unlinkSyncRun win opts res fixRes).calls = opts.maxRetries + 1) ∧
    (∀ (win : Bool) (opts : RmOpts) (res fixRes : Nat → Option FsError),
      (∀ i, i < opts.maxRetries → failsRetryably res fixRes i) →
      res opts.maxRetries = none →
      (unlinkSyncRun win opts res fixRes).result = none ∧
      (unlinkSyncRun win opts res fixRes).calls = opts.maxRetries + 1) := by
  constructor
  · intro win opts res fixRes h
    obtain ⟨h1, h2, _⟩ := unlinkSyncGo_all_fail win opts res fixRes opts.maxRetries 0
      (fun i _ hle => h i (by omega))
    rw [Nat.zero_add] at h1
    exact ⟨h1, h2⟩
  · intro win opts res fixRes h hsucc
    obtain ⟨h1, h2, _⟩ := unlinkSyncGo_fail_then_succeed win opts res fixRes opts.maxRetries 0
      (fun i _ hlt => h i (by omega)) (by rw [Nat.zero_add]; exact hsucc)
    exact ⟨h1, h2⟩

/-- Witness for C2 at a concrete run: budget 2, all three calls fail with
`EBUSY` — the run ends with `EBUSY` after exactly 3 calls; and with the
first two calls failing and the third succeeding, the run ends
successfully after exactly 3 calls. -/
theorem C2_retry_budget_witness :
    ((∀ i, i ≤ 2 → failsRetryably (fun _ => some ⟨"EBUSY", "", "", ""⟩)
        (fun _ => some ⟨"EBUSY", "", "", ""⟩) i) ∧
      (unlinkSyncRun false ⟨false, false, 2, 100⟩ (fun _ => some ⟨"EBUSY", "", "", ""⟩)
        (fun _ => some ⟨"EBUSY", "", "", ""⟩)).result = some ⟨"EBUSY", "", "", ""⟩ ∧
      (unlinkSyncRun false ⟨false, false, 2, 100⟩ (fun _ => some ⟨"EBUSY", "", "", ""⟩)
        (fun _ => some ⟨"EBUSY", "", "", ""⟩)).calls = 3) ∧
    ((unlinkSyncRun false ⟨false, false, 2, 100⟩
        (fun i => if i < 2 then some ⟨"EBUSY", "", "", ""⟩ else none)
        (fun _ => some ⟨"EBUSY", "", "", ""⟩)).result = none ∧
      (unlinkSyncRun false ⟨false, false, 2, 100⟩
        (fun i => if i < 2 then some ⟨"EBUSY", "", "", ""⟩ else none)
        (fun _ => some ⟨"EBUSY", "", "", ""⟩)).calls = 3) :=
  ⟨⟨by decide,
    C2_retry_budget.1 false ⟨false, false, 2, 100⟩ (fun _ => some ⟨"EBUSY", "", "", ""⟩)
      (fun _ => some ⟨"EBUSY", "", "", ""⟩) (by decide)⟩,
    C2_retry_budget.2 false ⟨false, false, 2, 100⟩
      (fun i => if i < 2 then some ⟨"EBUSY", "", "", ""⟩ else none)
      (fun _ => some ⟨"EBUSY", "", "", ""⟩) (by decide) (by decide)⟩

/-!
## Windows permission repair

Embedding of `fixWinEPERMSync` from `src/fallback/fixWinEPERM.ts`:
`chmod(path, 0o666)`; on chmod failure throw the original error; `stat`;
on stat failure throw the original error; then `rmdirSync(path)` if the
stat reports a directory else `unlinkSync(path)`, whose own outcome
propagates unchanged.  The async `fixWinEPERM` has the identical
decision structure (chmod/stat failures invoke the callback with
`originalError`; the final `fs.rmdir`/`fs.unlink` passes `callback`
directly).  Oracles: `chmodRes` is the chmod outcome, `statRes` the stat
outcome (`Bool` = `stats.isDirectory()`), `rmdirRes`/`unlinkRes` the
final remove outcome. -/
def fixWinEPERMSync (chmodRes : Option FsError) (statRes : Except FsError Bool)
    (rmdirRes unlinkRes : Option FsError) (originalError : FsError) : Option FsError :=
  match chmodRes with
  | some _ => some originalError
  | none =>
    match statRes with
    | .error _ => some originalError
    | .ok isDir => if isDir then rmdirRes else unlinkRes

/-- C4 counterexample: the repair is triggered by an original `EPERM`,
chmod and stat succeed (non-directory), and the final `unlink` step fails
with `EACCES` — the procedure delivers `EACCES`, the repair step's own
error, not the original `EPERM`. -/
theorem C4_counterexample :
    fixWinEPERMSync none (.ok false) none (some ⟨"EACCES", "", "", ""⟩)
        ⟨"EPERM", "", "", ""⟩ = some ⟨"EACCES", "", "", ""⟩ ∧
      some (⟨"EACCES", "", "", ""⟩ : FsError) ≠ some (⟨"EPERM", "", "", ""⟩ : FsError) :=
  ⟨rfl, by decide⟩

/-- C4 (amended): a failure at the chmod or re-stat step of the Windows
permission repair discards that step's own error and delivers the
original triggering error; a failure at the final remove step propagates
that step's error out of the procedure, but every caller catches and
discards the procedure's failure and continues with the original error,
so the error a removal unit finally surfaces is always an underlying
remove-call error (never a repair-step error). -/
theorem C4_repair_error_propagation :
    (∀ (c : FsError) (s : Except FsError Bool) (rd ul : Option FsError) (o : FsError),
      fixWinEPERMSync (some c) s rd ul o = some o) ∧
    (∀ (s : FsError) (rd ul : Option FsError) (o : FsError),
      fixWinEPERMSync none (.error s) rd ul o = some o) ∧
    (∀ (win : Bool) (opts : RmOpts) (res fixRes : Nat → Option FsError)
        (remaining attempt : Nat),
      (safeRmGo win opts res fixRes remaining attempt).result = none ∨
      ∃ i, attempt ≤ i ∧ i ≤ attempt + remaining ∧
        (safeRmGo win opts res fixRes remaining attempt).result = res i) ∧
    (∀ (win : Bool) (opts : RmOpts) (res fixRes : Nat → Option FsError)
        (remaining attempt : Nat),
      (unlinkSyncGo win opts res fixRes remaining attempt).result = none ∨
      ∃ i, attempt ≤ i ∧ i ≤ attempt + remaining ∧
        (unlinkSyncGo win opts res fixRes remaining attempt).result = res i) := by
  refine ⟨fun c s rd ul o => rfl, fun s rd ul o => rfl, ?_, ?_⟩
  · intro win opts res fixRes remaining
    induction remaining with
    | zero =>
      intro attempt
      cases hres : res attempt with
      | none => left; rw [safeRmGo]; simp only [hres]
      | some e =>
        rw [safeRmGo]; simp only [hres]
        by_cases h1 : (decide (e.code = "ENOENT") && opts.force) = true
        · rw [if_pos h1]; left; rfl
        · rw [if_neg h1]
          by_cases h2 : (shouldFixEPERM win e && (fixRes attempt).isNone) = true
          · rw [if_pos h2]; left; rfl
          · rw [if_neg h2]
            by_cases h3 : isRetryableError e = true
            · rw [if_pos h3]; right; exact ⟨attempt, le_rfl, by omega, by rw [hres]⟩
            · rw [if_neg h3]; right; exact ⟨attempt, le_rfl, by omega, by rw [hres]⟩
    | succ r ih =>
      intro attempt
      cases hres : res attempt with
      | none => left; rw [safeRmGo]; simp only [hres]
      | some e =>
        rw [safeRmGo]; simp only [hres]
        by_cases h1 : (decide (e.code = "ENOENT") && opts.force) = true
        · rw [if_pos h1]; left; rfl
        · rw [if_neg h1]
          by_cases h2 : (shouldFixEPERM win e && (fixRes attempt).isNone) = true
          · rw [if_pos h2]; left; rfl
          · rw [if_neg h2]
            by_cases h3 : isRetryableError e = true
            · rw [if_pos h3]
              rcases ih (attempt + 1) with hnone | ⟨i, hi1, hi2, hi3⟩
              · left
                show (safeRmGo win opts res fixRes r (attempt + 1)).result = none
                exact hnone
              · right
                exact ⟨i, by omega, by omega, hi3⟩
            · rw [if_neg h3]; right; exact ⟨attempt, le_rfl, by omega, by rw [hres]⟩
  · intro win opts res fixRes remaining
    induction remaining with
    | zero =>
      intro attempt
      cases hres : res attempt with
      | none => left; rw [unlinkSyncGo]; simp only [hres]
      | some e =>
        rw [unlinkSyncGo]; simp only [hres]
        by_cases h1 : e.code = "ENOENT"
        · rw [if_pos h1]
          by_cases hf : opts.force = true
          · left; simp [hf]
          · right
            refine ⟨attempt, le_rfl, by omega, ?_⟩
            rw [hres]
            simp [hf]
        · rw [if_neg h1]
          by_cases h2 : (shouldFixEPERM win e && (fixRes attempt).isNone) = true
          · rw [if_pos h2]; left; rfl
          · rw [if_neg h2]
            by_cases h3 : isRetryableError e = true
            · rw [if_pos h3]; right; exact ⟨attempt, le_rfl, by omega, by rw [hres]⟩
            · rw [if_neg h3]; right; exact ⟨attempt, le_rfl, by omega, by rw [hres]⟩
    | succ r ih =>
      intro attempt
      cases hres : res attempt with
      | none => left; rw [unlinkSyncGo]; simp only [hres]
      | some e =>
        rw [unlinkSyncGo]; simp only [hres]
        by_cases h1 : e.code = "ENOENT"
        · rw [if_pos h1]
          by_cases hf : opts.force = true
          · left; simp [hf]
          · right
            refine ⟨attempt, le_rfl, by omega, ?_⟩
            rw [hres]
            simp [hf]
        · rw [if_neg h1]
          by_cases h2 : (shouldFixEPERM win e && (fixRes attempt).isNone) = true
          · rw [if_pos h2]; left; rfl
          · rw [if_neg h2]
            by_cases h3 : isRetryableError e = true
            · rw [if_pos h3]
              rcases ih (attempt + 1) with hnone | ⟨i, hi1, hi2, hi3⟩
              · left
                show (unlinkSyncGo win opts res fixRes r (attempt + 1)).result = none
                exact hnone
              · right
                exact ⟨i, by omega, by omega, hi3⟩
            · rw [if_neg h3]; right; exact ⟨attempt, le_rfl, by omega, by rw [hres]⟩

/-- C5 counterexample: on Windows, with `maxRetries = 1`, both `rmOnce`
calls fail with `EPERM` and both repair attempts fail — the permission
repair is attempted twice during one removal unit, not at most once. -/
theorem C5_counterexample :
    (safeRmRun true ⟨true, true, 1, 100⟩ (fun _ => some ⟨"EPERM", "", "", ""⟩)
        (fun _ => some ⟨"EPERM", "", "", ""⟩)).fixAttempts = 2 ∧
      ¬ (safeRmRun true ⟨true, true, 1, 100⟩ (fun _ => some ⟨"EPERM", "", "", ""⟩)
        (fun _ => some ⟨"EPERM", "", "", ""⟩)).fixAttempts ≤ 1 := by
  exact ⟨by decide, by decide⟩

/-- C5 (amended): the Windows permission repair is attempted at most once
per failing underlying call (so at most `calls` times over the lifetime
of a removal unit, not at most once overall), and a successful repair
terminates the unit immediately — one underlying call, no backoff delay,
no retry-attempt slot consumed. -/
theorem C5_repair_side_channel :
    (∀ (win : Bool) (opts : RmOpts) (res fixRes : Nat → Option FsError)
        (remaining attempt : Nat),
      (safeRmGo win opts res fixRes remaining attempt).fixAttempts ≤
        (safeRmGo win opts res fixRes remaining attempt).calls) ∧
    (∀ (win : Bool) (opts : RmOpts) (res fixRes : Nat → Option FsError) (e : FsError),
      res 0 = some e → shouldFixEPERM win e = true → fixRes 0 = none →
      safeRmRun win opts res fixRes = ⟨none, 1, [], 1⟩) := by
  constructor
  · intro win opts res fixRes remaining
    induction remaining with
    | zero =>
      intro attempt
      cases hres : res attempt with
      | none => rw [safeRmGo]; simp only [hres]; exact Nat.zero_le 1
      | some e =>
        rw [safeRmGo]; simp only [hres]
        by_cases h1 : (decide (e.code = "ENOENT") && opts.force) = true
        · rw [if_pos h1]; exact Nat.zero_le 1
        · rw [if_neg h1]
          by_cases h2 : (shouldFixEPERM win e && (fixRes attempt).isNone) = true
          · rw [if_pos h2]
          · rw [if_neg h2]
            by_cases h3 : isRetryableError e = true
            · rw [if_pos h3]
              show (if shouldFixEPERM win e = true then 1 else 0) ≤ 1
              split_ifs <;> omega
            · rw [if_neg h3]
              show (if shouldFixEPERM win e = true then 1 else 0) ≤ 1
              split_ifs <;> omega
    | succ r ih =>
      intro attempt
      cases hres : res attempt with
      | none => rw [safeRmGo]; simp only [hres]; exact Nat.zero_le 1
      | some e =>
        rw [safeRmGo]; simp only [hres]
        by_cases h1 : (decide (e.code = "ENOENT") && opts.force) = true
        · rw [if_pos h1]; exact Nat.zero_le 1
        · rw [if_neg h1]
          by_cases h2 : (shouldFixEPERM win e && (fixRes attempt).isNone) = true
          · rw [if_pos h2]
          · rw [if_neg h2]
            by_cases h3 : isRetryableError e = true
            · rw [if_pos h3]
              show (if shouldFixEPERM win e = true then 1 else 0) +
                  (safeRmGo win opts res fixRes r (attempt + 1)).fixAttempts ≤
                (safeRmGo win opts res fixRes r (attempt + 1)).calls + 1
              have := ih (attempt + 1)
              split_ifs <;> omega
            · rw [if_neg h3]
              show (if shouldFixEPERM win e = true then 1 else 0) ≤ 1
              split_ifs <;> omega
  · intro win opts res fixRes e hres hfixable hfix
    have hcode : e.code = "EPERM" := by
      rw [shouldFixEPERM] at hfixable
      have := (Bool.and_eq_true _ _).mp hfixable
      exact eq_of_beq this.2
    rw [safeRmRun, safeRmGo]
    simp only [hres]
    rw [if_neg (by simp [hcode]), if_pos (by simp [hfixable, hfix])]

/-- Witness for C5 (amended): a first call failing with `EPERM` on
Windows whose repair succeeds ends the unit at once with no delay. -/
theorem C5_repair_side_channel_witness :
    safeRmRun true ⟨true, true, 10, 100⟩ (fun _ => some ⟨"EPERM", "", "", ""⟩)
      (fun _ => none) = ⟨none, 1, [], 1⟩ :=
  C5_repair_side_channel.2 true ⟨true, true, 10, 100⟩ (fun _ => some ⟨"EPERM", "", "", ""⟩)
    (fun _ => none) ⟨"EPERM", "", "", ""⟩ rfl (by decide) rfl

/-- The retry loop of `safeRmSync` and the callback recursion of
`safeRmImpl` make identical decisions at every iteration. -/
theorem safeRmSyncGo_eq_safeRmGo (win : Bool) (opts : RmOpts)
    (res fixRes : Nat → Option FsError) :
    ∀ remaining attempt,
      safeRmSyncGo win opts res fixRes remaining attempt =
        safeRmGo win opts res fixRes remaining attempt := by
  intro remaining
  induction remaining with
  | zero =>
    intro attempt
    rw [safeRmSyncGo, safeRmGo]
  | succ r ih =>
    intro attempt
    rw [safeRmSyncGo, safeRmGo]
    cases hres : res attempt with
    | none => rfl
    | some e =>
      simp only [ih (attempt + 1)]

/-- C6 counterexample: with `maxRetries = 0` on Windows, a single
underlying call failing with `EPERM` whose permission repair succeeds —
the async variant (`safeRm`) succeeds, while the sync variant
(`safeRmSync`) takes its `maxRetries === 0` shortcut, skips the
EPERM-repair wrapping, and fails with `EPERM`. -/
theorem C6_counterexample :
    (safeRmSyncRun true ⟨true, true, 0, 100⟩ (fun _ => some ⟨"EPERM", "", "", ""⟩)
        (fun _ => none)).result = some ⟨"EPERM", "", "", ""⟩ ∧
      (safeRmRun true ⟨true, true, 0, 100⟩ (fun _ => some ⟨"EPERM", "", "", ""⟩)
        (fun _ => none)).result = none ∧
      safeRmSyncRun true ⟨true, true, 0, 100⟩ (fun _ => some ⟨"EPERM", "", "", ""⟩)
          (fun _ => none) ≠
        safeRmRun true ⟨true, true, 0, 100⟩ (fun _ => some ⟨"EPERM", "", "", ""⟩)
          (fun _ => none) := by
  refine ⟨by decide, by decide, by decide⟩

/-- C6 (amended): for every request with `maxRetries ≠ 0` and every
sequence of underlying results, the blocking (`safeRmSync`) and
non-blocking (`safeRm`) safe variants produce identical outcomes —
same result, same number of underlying calls, same backoff delays, same
permission-repair behavior.  (With `maxRetries = 0` the sync variant
delegates a single call without the ENOENT/force and EPERM-repair
wrapping that the async variant still applies, and outcomes can
differ.) -/
theorem C6_sync_async_agree (win : Bool) (opts : RmOpts)
    (res fixRes : Nat → Option FsError) (h : opts.maxRetries ≠ 0) :
    safeRmSyncRun win opts res fixRes = safeRmRun win opts res fixRes := by
  rw [safeRmSyncRun, if_neg h]
  exact safeRmSyncGo_eq_safeRmGo win opts res fixRes opts.maxRetries 0

/-- Witness for C6 (amended) at a concrete run with `maxRetries = 2`. -/
theorem C6_sync_async_agree_witness :
    (⟨true, true, 2, 100⟩ : RmOpts).maxRetries ≠ 0 ∧
      safeRmSyncRun false ⟨true, true, 2, 100⟩ (fun _ => some ⟨"EBUSY", "", "", ""⟩)
          (fun _ => some ⟨"EPERM", "", "", ""⟩) =
        safeRmRun false ⟨true, true, 2, 100⟩ (fun _ => some ⟨"EBUSY", "", "", ""⟩)
          (fun _ => some ⟨"EPERM", "", "", ""⟩) :=
  ⟨by decide,
    C6_sync_async_agree false ⟨true, true, 2, 100⟩ (fun _ => some ⟨"EBUSY", "", "", ""⟩)
      (fun _ => some ⟨"EPERM", "", "", ""⟩) (by decide)⟩

/-!
## Directory-level walk in the non-blocking mode

Embedding of `rmdirRecursive` from `src/fallback/rm.ts` (lines 66-117)
at one directory level.  The JavaScript event loop serializes the
`fs.lstat` and child-completion callbacks, so a concurrent fan-out over
`n` children is a sequence of `n` completion events in an arbitrary
arrival order; the walk keeps a `pending` counter and a `hasError`
latch.  Each child delivers exactly one event:

* `statGone` — its `fs.lstat` failed with `ENOENT` under `force`
  (lines 88-91: `pending--`, trigger the directory removal at zero);
* `ok`       — its recursive removal or `unlinkWithRetry` succeeded
  (`onDone` with no error);
* `fail e`   — its stat failed otherwise, or `onDone` got an error
  (latch `hasError` and invoke the walk's callback with `e`).

`signals` records every invocation of the walk's terminal callback.
When `pending` reaches zero the code invokes
`rmdirWithRetry(path, options, 0, callback)` on the directory itself,
which calls `callback` exactly once with some outcome (the leaf retry
loop is a total function producing one outcome — cf. `LeafRun.result`);
that outcome is the oracle `dirRes`. -/

/-- One child-completion event observed by a directory-level walk. -/
inductive ChildEvent where
  | statGone : ChildEvent
  | ok : ChildEvent
  | fail (e : FsError) : ChildEvent
deriving DecidableEq, Repr

/-- The walk's per-level bookkeeping: children still pending, the
first-error latch, and the list of terminal-callback invocations. -/
structure WalkState where
  pending : Nat
  hasError : Bool
  signals : List (Option FsError)
deriving DecidableEq, Repr

/-- `pending--; if (pending === 0) rmdirWithRetry(path, options, 0, callback);` -/
def walkDec (dirRes : Option FsError) (s : WalkState) : WalkState :=
  if s.pending - 1 = 0 then ⟨0, s.hasError, s.signals ++ [dirRes]⟩
  else ⟨s.pending - 1, s.hasError, s.signals⟩

/-- Processing of one child-completion event: every path is guarded by
the `hasError` latch (`if (hasError) return;`); an error latches and
invokes the callback; a success or a tolerated `ENOENT` stat decrements
`pending`. -/
def walkStep (dirRes : Option FsError) (s : WalkState) (ev : ChildEvent) : WalkState :=
  if s.hasError then s
  else
    match ev with
    | .fail e => ⟨s.pending, true, s.signals ++ [some e]⟩
    | .ok => walkDec dirRes s
    | .statGone => walkDec dirRes s

/-- The error of the first `fail` event in arrival order, if any. -/
def firstFail : List ChildEvent → Option FsError
  | [] => none
  | .fail e :: _ => some e
  | _ :: rest => firstFail rest

/-- One directory-level walk of `rmdirRecursive`: `readdir` outcome
`readRes` (with its `ENOENT`/`force` tolerance), then the empty-directory
shortcut, else the fan-out fold over the children's completion events. -/
def walkRun (force : Bool) (readRes : Option FsError) (events : List ChildEvent)
    (dirRes : Option FsError) : WalkState :=
  match readRes with
  | some re =>
    if re.code = "ENOENT" && force then ⟨0, false, [none]⟩
    else ⟨0, false, [some re]⟩
  | none =>
    if events.length = 0 then ⟨0, false, [dirRes]⟩
    else events.foldl (walkStep dirRes) ⟨events.length, false, []⟩

/-- Once the first-error latch is set, later events leave the walk state
untouched — in particular they add no terminal signal. -/
theorem walk_foldl_latched (dirRes : Option FsError) :
    ∀ (events : List ChildEvent) (s : WalkState), s.hasError = true →
      events.foldl (walkStep dirRes) s = s := by
  intro events
  induction events with
  | nil => intro s _; rfl
  | cons a rest ih =>
    intro s hs
    rw [List.foldl_cons, walkStep.eq_def, if_pos hs]
    exact ih s hs

/-- Folding the events of a level whose `pending` counter starts at the
number of events appends exactly one terminal signal: the first `fail`
error if any event fails, else the directory's own removal outcome. -/
theorem walk_foldl_signals (dirRes : Option FsError) :
    ∀ (events : List ChildEvent) (sigs : List (Option FsError)), events ≠ [] →
      (events.foldl (walkStep dirRes) ⟨events.length, false, sigs⟩).signals =
        sigs ++ [(firstFail events).elim dirRes some] := by
  intro events
  induction events with
  | nil => intro sigs h; exact absurd rfl h
  | cons a rest ih =>
    intro sigs _
    cases a with
    | fail e =>
      show (rest.foldl (walkStep dirRes) ⟨rest.length + 1, true, sigs ++ [some e]⟩).signals = _
      rw [walk_foldl_latched dirRes rest _ rfl]
      rfl
    | ok =>
      by_cases hrest : rest = []
      · subst hrest; rfl
      · have hst : walkStep dirRes ⟨rest.length + 1, false, sigs⟩ .ok =
            ⟨rest.length, false, sigs⟩ := by
          rw [walkStep.eq_def, if_neg (by simp), walkDec]
          rw [if_neg (by simpa using fun h => hrest (List.length_eq_zero.mp h))]
          rfl
        show (rest.foldl (walkStep dirRes)
          (walkStep dirRes ⟨rest.length + 1, false, sigs⟩ .ok)).signals = _
        rw [hst]
        exact ih sigs hrest
    | statGone =>
      by_cases hrest : rest = []
      · subst hrest; rfl
      · have hst : walkStep dirRes ⟨rest.length + 1, false, sigs⟩ .statGone =
            ⟨rest.length, false, sigs⟩ := by
          rw [walkStep.eq_def, if_neg (by simp), walkDec]
          rw [if_neg (by simpa using fun h => hrest (List.length_eq_zero.mp h))]
          rfl
        show (rest.foldl (walkStep dirRes)
          (walkStep dirRes ⟨rest.length + 1, false, sigs⟩ .statGone)).signals = _
        rw [hst]
        exact ih sigs hrest

/-- C3: in the non-blocking mode a directory-level walk delivers exactly
one terminal signal, whatever the `readdir` outcome, the children's
completion events and their arrival order, and the directory's own
removal outcome; when the children are reached, the signal carries the
first error to arrive if any child fails (first-error-wins), so two
children that both fail — e.g. concurrently with fatal errors — produce
exactly one terminal error, never two. -/
theorem C3_single_terminal_signal (force : Bool) (readRes : Option FsError)
    (events : List ChildEvent) (dirRes : Option FsError) :
    (walkRun force readRes events dirRes).signals.length = 1 ∧
    (walkRun force none events dirRes).signals =
      [(firstFail events).elim dirRes some] ∧
    ∀ e1 e2 : FsError,
      (walkRun force none [.fail e1, .fail e2] dirRes).signals = [some e1] := by
  have hnone : ∀ evs : List ChildEvent,
      (walkRun force none evs dirRes).signals = [(firstFail evs).elim dirRes some] := by
    intro evs
    rw [walkRun]
    by_cases hlen : evs.length = 0
    · rw [if_pos hlen]
      rw [List.length_eq_zero.mp hlen]
      rfl
    · rw [if_neg hlen]
      exact walk_foldl_signals dirRes evs []
        (fun h => hlen (by rw [h]; rfl))
  refine ⟨?_, hnone events, fun e1 e2 => hnone [.fail e1, .fail e2]⟩
  cases readRes with
  | none => rw [hnone events]; rfl
  | some re =>
    rw [walkRun]
    by_cases hre : (decide (re.code = "ENOENT") && force) = true
    · rw [if_pos hre]; rfl
    · rw [if_neg hre]; rfl

/-!
## Deterministic filesystem model for the fallback orchestrator and walk

`fallbackRmSync` (`src/fallback/rmSync.ts`, lines 120-152) and the
structurally identical `fallbackRm` (`src/fallback/rm.ts`, lines
123-153) are embedded against a deterministic tree-shaped filesystem:
no external mutation and no transient failures, so an operation on an
existing entry succeeds and repeated attempts return identical results.
Paths are component lists; the source builds child paths as
`path + "/" + entry`, rendered here by `renderPath`.

`fs.lstatSync` semantics: looking a path up never follows symbolic
links — a `symlink` node is returned as itself whatever its target. -/

/-- A filesystem node: regular file, symbolic link (carrying its target
path, which may dangle), or directory with named children. -/
inductive Node where
  | file : Node
  | symlink (target : List String) : Node
  | dir (children : List (String × Node)) : Node

mutual
/-- Non-following lookup (`fs.lstatSync`): resolve each component in the
directory tree; a symlink in final position is returned as itself, a
symlink or file in non-final position ends the lookup with `none`. -/
def nodeAt : Node → List String → Option Node
  | n, [] => some n
  | .dir cs, name :: rest => nodeAtChildren cs name rest
  | .file, _ :: _ => none
  | .symlink _, _ :: _ => none

/-- Lookup of one component among a directory's children. -/
def nodeAtChildren : List (String × Node) → String → List String → Option Node
  | [], _, _ => none
  | (n, c) :: cs, name, rest => if n = name then nodeAt c rest else nodeAtChildren cs name rest
end

mutual
/-- Removal of the entry at a path (the effect of a successful `unlink`
or `rmdir`); a path that resolves to nothing leaves the tree unchanged. -/
def removeAt : Node → List String → Node
  | n, [] => n
  | .dir cs, name :: rest => .dir (removeAtChildren cs name rest)
  | .file, _ :: _ => .file
  | .symlink t, _ :: _ => .symlink t

/-- Removal of one step among a directory's children. -/
def removeAtChildren : List (String × Node) → String → List String → List (String × Node)
  | [], _, _ => []
  | (n, c) :: cs, name, rest =>
    if n = name then
      match rest with
      | [] => cs
      | _ :: _ => (n, removeAt c rest) :: cs
    else (n, c) :: removeAtChildren cs name rest
end

/-- One filesystem call issued by the fallback implementation. -/
inductive Op where
  | lstat (p : List String) : Op
  | readdir (p : List String) : Op
  | unlink (p : List String) : Op
  | rmdir (p : List String) : Op
deriving DecidableEq, Repr

/-- The path argument of a filesystem call. -/
def Op.path : Op → List String
  | .lstat p => p
  | .readdir p => p
  | .unlink p => p
  | .rmdir p => p

/-- `path + "/" + entry` path rendering of the source. -/
def renderPath (p : List String) : String := String.intercalate "/" p

/-- The ASCII apostrophe used by the source's template literal
`rm '${path}'`. -/
def quoteChar : String := String.singleton (Char.ofNat 39)

/-- The error object synthesized by `fallbackRmSync`/`fallbackRm` for a
directory target without `recursive`:
`new Error("EISDIR: illegal operation on a directory, rm '<path>'")`
with `code = 'EISDIR'`, `syscall = 'rm'`, `path = <path>`. -/
def errEISDIR (p : List String) : FsError :=
  { code := "EISDIR"
    message := "EISDIR: illegal operation on a directory, rm " ++
      quoteChar ++ renderPath p ++ quoteChar
    path := renderPath p
    syscall := "rm" }

/-- The deterministic `ENOENT` failure of a stat/remove on an absent
entry (raised by the host filesystem, not built by the library). -/
def errENOENT : FsError := { code := "ENOENT" }

mutual
/-- The calls issued by `rmdirRecursiveSync` (`src/fallback/rmSync.ts`,
lines 83-114) on a deterministic filesystem in which every call
succeeds: for a directory, `readdir`, then per child an `lstat` followed
by recursion (directory child) or a single successful `unlink`
(non-directory child — `stats.isDirectory()` is false for a symlink
because the stat does not follow links), then `rmdir` of the directory
itself.  `rmdirRecursive` of `src/fallback/rm.ts` issues the same calls
modulo arrival order within one directory level. -/
def rmWalk : List String → Node → List Op
  | p, .dir cs => .readdir p :: (rmWalkChildren p cs ++ [.rmdir p])
  | p, .file => [.unlink p]
  | p, .symlink _ => [.unlink p]

/-- Calls issued for a directory's children, in list order. -/
def rmWalkChildren : List String → List (String × Node) → List Op
  | _, [] => []
  | p, (n, c) :: cs => (.lstat (p ++ [n]) :: rmWalk (p ++ [n]) c) ++ rmWalkChildren p cs
end

/-- Deterministic outcome of one `fs.unlinkSync` call: `ENOENT` when the
entry is absent, an `EISDIR`-class failure on a directory (never reached
in the scenarios below), success otherwise. -/
def fsUnlinkRes (fs : Node) (p : List String) : Option FsError :=
  match nodeAt fs p with
  | none => some errENOENT
  | some (.dir _) => some { code := "EISDIR" }
  | some _ => none

/-- `unlinkSync(path, opts)` against the deterministic filesystem: the
retry loop of `unlinkSyncGo` run with the constant call outcome
`fsUnlinkRes fs p` (a failed attempt does not change the tree, and the
permission repair's final remove step repeats the same deterministic
outcome).  Returns the outcome, the updated tree, and the trace of
remove calls. -/
def unlinkSyncFs (win : Bool) (fs : Node) (p : List String) (opts : RmOpts) :
    Option FsError × Node × List Op :=
  let r := unlinkSyncGo win opts (fun _ => fsUnlinkRes fs p) (fun _ => fsUnlinkRes fs p)
    opts.maxRetries 0
  (r.result, if r.result = none then removeAt fs p else fs,
    List.replicate r.calls (.unlink p))

/-- `fallbackRmSync(path, options)` (`src/fallback/rmSync.ts`, lines
120-152) on the deterministic filesystem: `lstat` the target — on
`ENOENT` succeed if `force` else fail; a directory without `recursive`
fails with the synthesized `EISDIR` error; a directory with `recursive`
runs the walk (which in this deterministic-success model removes the
whole subtree); anything else goes to `unlinkSync`.  `fallbackRm`
(`src/fallback/rm.ts`, lines 123-153) makes the same decisions. -/
def fallbackRmSyncModel (win : Bool) (fs : Node) (p : List String) (opts : RmOpts) :
    Option FsError × Node × List Op :=
  match nodeAt fs p with
  | none => (if opts.force then none else some errENOENT, fs, [.lstat p])
  | some (.dir cs) =>
    if opts.recursive = false then (some (errEISDIR p), fs, [.lstat p])
    else (none, removeAt fs p, .lstat p :: rmWalk p (.dir cs))
  | some _ =>
    let u := unlinkSyncFs win fs p opts
    (u.1, u.2.1, .lstat p :: u.2.2)

/-- C7: for every directory target with `recursive = false` the fallback
fails immediately with the synthesized `IllegalOnDirectory` error — code
`EISDIR`, the fixed descriptive message, the offending path and the
fixed operation label `rm` — whatever `force` and the retry options; the
only filesystem call made is the classifying `lstat`, the tree is
unchanged, and repeating the call yields the same failure. -/
theorem C7_eisdir_nonrecursive (win : Bool) (fs : Node) (p : List String)
    (opts : RmOpts) (cs : List (String × Node))
    (hdir : nodeAt fs p = some (.dir cs)) (hrec : opts.recursive = false) :
    fallbackRmSyncModel win fs p opts = (some (errEISDIR p), fs, [.lstat p]) ∧
    (errEISDIR p).code = "EISDIR" ∧
    (errEISDIR p).message = "EISDIR: illegal operation on a directory, rm " ++
      quoteChar ++ renderPath p ++ quoteChar ∧
    (errEISDIR p).path = renderPath p ∧
    (errEISDIR p).syscall = "rm" ∧
    fallbackRmSyncModel win (fallbackRmSyncModel win fs p opts).2.1 p opts =
      fallbackRmSyncModel win fs p opts := by
  have h1 : fallbackRmSyncModel win fs p opts = (some (errEISDIR p), fs, [.lstat p]) := by
    rw [fallbackRmSyncModel]
    simp only [hdir]
    rw [if_pos hrec]
  refine ⟨h1, rfl, rfl, rfl, rfl, ?_⟩
  rw [h1]
  show fallbackRmSyncModel win fs p opts = _
  exact h1

/-- Witness for C7: a one-entry directory target, `recursive = false`,
`force = true`, a non-zero retry budget — the call returns the `EISDIR`
error, issues only the `lstat`, and leaves the tree unchanged. -/
theorem C7_eisdir_nonrecursive_witness :
    nodeAt (.dir [("d", .dir [("x", Node.file)])]) ["d"] = some (.dir [("x", Node.file)]) ∧
    (⟨false, true, 5, 7⟩ : RmOpts).recursive = false ∧
    fallbackRmSyncModel false (.dir [("d", .dir [("x", Node.file)])]) ["d"] ⟨false, true, 5, 7⟩ =
      (some (errEISDIR ["d"]), .dir [("d", .dir [("x", Node.file)])], [.lstat ["d"]]) :=
  ⟨rfl, rfl,
    (C7_eisdir_nonrecursive false (.dir [("d", .dir [("x", Node.file)])]) ["d"]
      ⟨false, true, 5, 7⟩ [("x", Node.file)] rfl rfl).1⟩

/-- C8: for every request whose target does not exist (the classifying
`lstat` fails with `ENOENT`), the fallback succeeds when `force = true`
and fails with the `ENOENT` error when `force = false`, whatever
`recursive` and the retry options; the only filesystem call made is the
`lstat` — the outcome is decided before any retry logic and no remove
call, retry attempt or backoff delay is consumed. -/
theorem C8_notfound_force (win : Bool) (fs : Node) (p : List String) (opts : RmOpts)
    (habs : nodeAt fs p = none) :
    fallbackRmSyncModel win fs p opts =
      (if opts.force then none else some errENOENT, fs, [.lstat p]) := by
  rw [fallbackRmSyncModel]
  simp only [habs]

/-- Witness for C8: an absent target under `force = true` (with
`recursive = false` and a non-zero retry budget) succeeds with the
single `lstat` call. -/
theorem C8_notfound_force_witness :
    nodeAt (.dir [("a", Node.file)]) ["missing"] = none ∧
    fallbackRmSyncModel false (.dir [("a", Node.file)]) ["missing"] ⟨false, true, 5, 7⟩ =
      (none, .dir [("a", Node.file)], [.lstat ["missing"]]) :=
  ⟨rfl,
    C8_notfound_force false (.dir [("a", Node.file)]) ["missing"] ⟨false, true, 5, 7⟩ rfl⟩

/-- C9: for every target that is a symbolic link — the classification
uses the non-following `lstat`, so this includes a broken link whose
target no longer exists — the fallback succeeds by unlinking the link
itself on the first attempt: the tree afterwards is the tree with the
link entry removed, the trace is exactly `lstat` then `unlink` of the
link's own path, and every call addresses the link's path (the target
is never resolved or removed). -/
theorem C9_symlink_unlinked (win : Bool) (fs : Node) (p : List String) (opts : RmOpts)
    (t : List String) (hlink : nodeAt fs p = some (.symlink t)) :
    fallbackRmSyncModel win fs p opts = (none, removeAt fs p, [.lstat p, .unlink p]) ∧
    ∀ op ∈ (fallbackRmSyncModel win fs p opts).2.2, op.path = p := by
  have hres : fsUnlinkRes fs p = none := by
    rw [fsUnlinkRes]
    simp only [hlink]
  have hgo : unlinkSyncGo win opts (fun _ => fsUnlinkRes fs p) (fun _ => fsUnlinkRes fs p)
      opts.maxRetries 0 = ⟨none, 1, [], 0⟩ := by
    rw [unlinkSyncGo]
    simp only [hres]
  have h1 : fallbackRmSyncModel win fs p opts = (none, removeAt fs p, [.lstat p, .unlink p]) := by
    rw [fallbackRmSyncModel]
    simp only [hlink]
    rw [unlinkSyncFs]
    simp only [hgo]
    rfl
  refine ⟨h1, ?_⟩
  rw [h1]
  intro op hop
  rcases List.mem_cons.mp hop with rfl | hop'
  · rfl
  · rcases List.mem_cons.mp hop' with rfl | hop''
    · rfl
    · exact absurd hop'' (List.not_mem_nil op)

/-- Witness for C9: a broken symbolic link (its target `gone` resolves
to nothing) is removed as itself. -/
theorem C9_symlink_unlinked_witness :
    nodeAt (.dir [("link", .symlink ["gone"])]) ["link"] = some (.symlink ["gone"]) ∧
    nodeAt (.dir [("link", .symlink ["gone"])]) ["gone"] = none ∧
    fallbackRmSyncModel false (.dir [("link", .symlink ["gone"])]) ["link"]
        ⟨false, false, 0, 100⟩ =
      (none, .dir [], [.lstat ["link"], .unlink ["link"]]) :=
  ⟨rfl, rfl,
    (C9_symlink_unlinked false (.dir [("link", .symlink ["gone"])]) ["link"]
      ⟨false, false, 0, 100⟩ ["gone"] rfl).1⟩

/-- Resolving a component path through the tree lands on a directory
with children `cs'` (first-match semantics are irrelevant here: any
matching child witnesses the relation). -/
inductive ReachesDir : Node → List String → List (String × Node) → Prop where
  | here (cs : List (String × Node)) : ReachesDir (.dir cs) [] cs
  | there {cs : List (String × Node)} {rest : List String} {n : String} {c : Node}
      {cs' : List (String × Node)} :
      (n, c) ∈ cs → ReachesDir c rest cs' → ReachesDir (.dir cs) (n :: rest) cs'

mutual
/-- Every `readdir` issued by the walk is addressed to a path that
resolves, below the walk root, to a directory node: the walk only
enumerates entries its non-following `lstat` classified as directories. -/
theorem rmWalk_readdir_shape (p : List String) (node : Node) (q : List String)
    (h : Op.readdir q ∈ rmWalk p node) :
    ∃ s cs', q = p ++ s ∧ ReachesDir node s cs' := by
  match node with
  | .file => simp [rmWalk] at h
  | .symlink t => simp [rmWalk] at h
  | .dir cs =>
    rw [rmWalk] at h
    rcases List.mem_cons.mp h with heq | h2
    · obtain rfl : q = p := by injection heq
      exact ⟨[], cs, by simp, ReachesDir.here cs⟩
    · rcases List.mem_append.mp h2 with h3 | h4
      · obtain ⟨n, c, s, cs', hmem, rfl, hreach⟩ := rmWalkChildren_readdir_shape p cs q h3
        exact ⟨n :: s, cs', by simp, ReachesDir.there hmem hreach⟩
      · simp at h4

/-- Auxiliary form of `rmWalk_readdir_shape` for a directory's child
list. -/
theorem rmWalkChildren_readdir_shape (p : List String) (cs : List (String × Node))
    (q : List String) (h : Op.readdir q ∈ rmWalkChildren p cs) :
    ∃ n c s cs', (n, c) ∈ cs ∧ q = p ++ n :: s ∧ ReachesDir c s cs' := by
  match cs with
  | [] => simp [rmWalkChildren] at h
  | (n, c) :: rest =>
    rw [rmWalkChildren] at h
    rcases List.mem_append.mp h with h1 | h2
    · rcases List.mem_cons.mp h1 with heq | hin
      · exact absurd heq (by simp)
      · obtain ⟨s, cs', hq, hreach⟩ := rmWalk_readdir_shape (p ++ [n]) c q hin
        exact ⟨n, c, s, cs', List.mem_cons_self _ _, by simp [hq], hreach⟩
    · obtain ⟨m, c', s, cs', hmem, hq, hreach⟩ := rmWalkChildren_readdir_shape p rest q h2
      exact ⟨m, c', s, cs', List.mem_cons_of_mem _ hmem, hq, hreach⟩
end

/-- In a directory whose child names are distinct (as on a real
filesystem), a name determines its node. -/
theorem nodup_key_unique :
    ∀ (cs : List (String × Node)), (cs.map Prod.fst).Nodup →
      ∀ {n : String} {a b : Node}, (n, a) ∈ cs → (n, b) ∈ cs → a = b := by
  intro cs
  induction cs with
  | nil => intro _ n a b ha _; exact absurd ha (List.not_mem_nil _)
  | cons hd rest ih =>
    intro hnodup n a b ha hb
    obtain ⟨hhd, hrest⟩ := List.nodup_cons.mp hnodup
    rcases List.mem_cons.mp ha with rfl | ha'
    · rcases List.mem_cons.mp hb with heq | hb'
      · exact (congrArg Prod.snd heq.symm).trans rfl
      · exact absurd (List.mem_map_of_mem Prod.fst hb') (by simpa using hhd)
    · rcases List.mem_cons.mp hb with rfl | hb'
      · exact absurd (List.mem_map_of_mem Prod.fst ha') (by simpa using hhd)
      · exact ih hrest ha' hb'

/-- The walk's trace contains the `lstat` of every child, and the whole
sub-trace produced for that child. -/
theorem rmWalkChildren_child_ops (p : List String) :
    ∀ (cs : List (String × Node)) (n : String) (c : Node), (n, c) ∈ cs →
      Op.lstat (p ++ [n]) ∈ rmWalkChildren p cs ∧
      ∀ op ∈ rmWalk (p ++ [n]) c, op ∈ rmWalkChildren p cs := by
  intro cs
  induction cs with
  | nil => intro n c h; exact absurd h (List.not_mem_nil _)
  | cons hd rest ih =>
    intro n c hmem
    rcases List.mem_cons.mp hmem with rfl | hmem'
    · constructor
      · rw [rmWalkChildren]
        exact List.mem_append_left _ (List.mem_cons_self _ _)
      · intro op hop
        rw [rmWalkChildren]
        exact List.mem_append_left _ (List.mem_cons_of_mem _ hop)
    · obtain ⟨hl, hsub⟩ := ih n c hmem'
      obtain ⟨m, d⟩ := hd
      constructor
      · rw [rmWalkChildren]
        exact List.mem_append_right _ hl
      · intro op hop
        rw [rmWalkChildren]
        exact List.mem_append_right _ (hsub op hop)

/-- C10: during a recursive fallback walk every child is classified with
the non-following `lstat`; a child that is a symbolic link — even one
whose target is a live directory — is never recursed into (enumerated
with `readdir`) as a subdirectory, and is removed with a single `unlink`
of its own path. -/
theorem C10_symlink_child_never_recursed (p : List String) (cs : List (String × Node))
    (n : String) (t : List String) (hmem : (n, Node.symlink t) ∈ cs)
    (hnodup : (cs.map Prod.fst).Nodup) :
    Op.lstat (p ++ [n]) ∈ rmWalk p (.dir cs) ∧
    Op.unlink (p ++ [n]) ∈ rmWalk p (.dir cs) ∧
    Op.readdir (p ++ [n]) ∉ rmWalk p (.dir cs) := by
  obtain ⟨hl, hsub⟩ := rmWalkChildren_child_ops p cs n (.symlink t) hmem
  have hw : rmWalk p (.dir cs) = .readdir p :: (rmWalkChildren p cs ++ [.rmdir p]) := by
    rw [rmWalk]
  refine ⟨?_, ?_, ?_⟩
  · rw [hw]
    exact List.mem_cons_of_mem _ (List.mem_append_left _ hl)
  · have hu : Op.unlink (p ++ [n]) ∈ rmWalk (p ++ [n]) (.symlink t) := by
      rw [rmWalk]
      exact List.mem_singleton.mpr rfl
    rw [hw]
    exact List.mem_cons_of_mem _ (List.mem_append_left _ (hsub _ hu))
  · intro hre
    obtain ⟨s, cs', hq, hreach⟩ := rmWalk_readdir_shape p (.dir cs) (p ++ [n]) hre
    have hs : [n] = s := by
      have := hq
      rwa [List.append_right_inj] at this
    subst hs
    cases hreach with
    | there hmem' hreach' =>
      cases hreach' with
      | here =>
        exact Node.noConfusion (nodup_key_unique cs hnodup hmem hmem')

/-- Witness for C10: a directory containing one symlink child whose
target is a live directory elsewhere in the tree — the walk unlinks the
link and never enumerates it. -/
theorem C10_symlink_child_never_recursed_witness :
    ("link", Node.symlink ["d"]) ∈ [("link", Node.symlink ["d"])] ∧
    nodeAt (.dir [("d", .dir [("f", Node.file)]), ("a", .dir [("link", .symlink ["d"])])])
      ["d"] = some (.dir [("f", Node.file)]) ∧
    Op.unlink (["a"] ++ ["link"]) ∈ rmWalk ["a"] (.dir [("link", .symlink ["d"])]) ∧
    Op.readdir (["a"] ++ ["link"]) ∉ rmWalk ["a"] (.dir [("link", .symlink ["d"])]) :=
  ⟨List.mem_singleton.mpr rfl, rfl,
    (C10_symlink_child_never_recursed ["a"] [("link", .symlink ["d"])] "link" ["d"]
      (List.mem_singleton.mpr rfl) (by simp)).2.1,
    (C10_symlink_child_never_recursed ["a"] [("link", .symlink ["d"])] "link" ["d"]
      (List.mem_singleton.mpr rfl) (by simp)).2.2⟩

end FsRemoveCompat
